import Mathlib

/-!
Shallow embedding of `src/create-release.js` from corca-ai/auto-release-action,
together with proofs settling the specification claims about it.

The embedding models JavaScript strings as Lean `String` (lists of characters),
JavaScript `undefined`/`null`/numbers as the inductive `JsVal`, thrown runtime
exceptions as `Except JsError`, and each outbound network request as an element
of a trace of `CallEvent`s.  Functions are translated line by line from the
source file; comments cite the line numbers they embed.
-/

namespace AutoRelease

/-- A JavaScript runtime exception: either a `TypeError` (calling a method or
reading a property of `undefined`/`null`, or invoking a non-function) or an
explicitly thrown `Error(msg)`. -/
inductive JsError where
  | typeError
  | errorThrown (msg : String)
deriving Repr, DecidableEq

/-- The JavaScript values that flow through the tracker pipeline: `undefined`,
`null`, or a number. -/
inductive JsVal where
  | undef
  | null
  | num (n : Int)
deriving Repr, DecidableEq

/-! ### Character classes of the regexes in `seperatePatchVersion`

`patchVersion.match(/\d+/)` uses the class `[0-9]` and
`patchVersion.match(/[a-zA-Z]+/)` uses the ASCII letters of either case.
We model the classes by their ASCII code ranges so that facts about them
are plain `Nat` inequalities. -/

/-- The regex class `\d`, i.e. the ASCII digits `0`..`9` (codes 48..57). -/
def isDigitChar (c : Char) : Bool :=
  48 ≤ c.toNat && c.toNat ≤ 57

/-- The regex class `[a-zA-Z]`: ASCII letters of either case
(codes 65..90 and 97..122). -/
def isAsciiLetterChar (c : Char) : Bool :=
  (65 ≤ c.toNat && c.toNat ≤ 90) || (97 ≤ c.toNat && c.toNat ≤ 122)

/-- The class `[a-z]` of lowercase ASCII letters (codes 97..122), used by the
specification's wording for the alphabetic part. -/
def isLowerChar (c : Char) : Bool :=
  97 ≤ c.toNat && c.toNat ≤ 122

/-- First match of the regex `p+` in a character list: `String.match` returns
the match starting at the first position whose character is in the class `p`,
extended greedily (maximally) to the right; `none` when no character of the
list is in `p`. -/
def firstRunAux (p : Char → Bool) : List Char → Option (List Char)
  | [] => none
  | c :: cs => if p c then some (c :: cs.takeWhile p) else firstRunAux p cs

/-- String-level wrapper of `firstRunAux`: the first maximal run of characters
of class `p` in `s`, as `s.match(/p+/)` computes it. -/
def firstRun (p : Char → Bool) (s : String) : Option String :=
  (firstRunAux p s.data).map String.mk

/-- The object `{ number, alpha }` returned by `seperatePatchVersion`
(create-release.js line 42). -/
structure PatchSeg where
  number : String
  alpha : String
deriving Repr, DecidableEq

/-- Embeds `seperatePatchVersion` (create-release.js lines 35-43):
`numberPart` is the first `/\d+/` match, `alphaPart` the first `/[a-zA-Z]+/`
match; when a match is absent (`null`), the ternaries default `number` to the
empty string and `alpha` to `"a"`. -/
def seperatePatchVersion (patchVersion : String) : PatchSeg :=
  let numberPart := firstRun isDigitChar patchVersion
  let alphaPart := firstRun isAsciiLetterChar patchVersion
  { number := numberPart.getD "", alpha := alphaPart.getD "a" }

/-- JavaScript property access on the `{ number, alpha }` object returned by
`seperatePatchVersion`: the object has exactly the properties `"number"` and
`"alpha"`; reading any other property name yields `undefined` (`none`). -/
def patchSegGet (seg : PatchSeg) (field : String) : Option String :=
  if field = "number" then some seg.number
  else if field = "alpha" then some seg.alpha
  else none

/-- The carry loop of `incrementPatchVersionAlphabeticSequence`
(create-release.js lines 55-69), expressed on the reversed character list:
the loop walks from the last index leftwards while `carry` holds, turning
each `'z'` into `'a'`, and bumps the first non-`'z'` character by one char
code; if the carry survives past the leftmost character, an `'a'` is
prepended (here: appended to the reversed list). -/
def carryInc : List Char → List Char
  | [] => ['a']
  | c :: rest =>
    if c = 'z' then 'a' :: carryInc rest
    else Char.ofNat (c.toNat + 1) :: rest

/-- The body of `incrementPatchVersionAlphabeticSequence` acting on a defined
string `current` (create-release.js lines 54-74).  `current.endsWith('z')` for
the one-character suffix `'z'` is the test that the last character is `'z'`;
in that branch the carry loop of lines 58-69 runs, otherwise lines 71-73
replace the last character by `String.fromCharCode(code+1)`.  On the empty
string JavaScript evaluates `current.substring(0, -1)` to `""` and
`String.fromCharCode(NaN)` to `"\u0000"`. -/
def incrementAlphaCarry (current : String) : String :=
  if current.data.getLast? = some 'z' then
    String.mk (carryInc current.data.reverse).reverse
  else
    match current.data.reverse with
    | [] => String.mk [Char.ofNat 0]
    | c :: rest => String.mk (Char.ofNat (c.toNat + 1) :: rest).reverse

/-- Embeds `incrementPatchVersionAlphabeticSequence` (create-release.js lines
50-77).  Line 51 destructures `{ number, alphabet }` from
`seperatePatchVersion(patchVersion)`, but that parser returns an object whose
properties are `number` and `alpha` (line 42), so the binding `alphabet`
receives `undefined`; line 54 then calls `current.endsWith('z')` on
`undefined`, which throws a `TypeError` before any increment happens.  Had
`current` been a defined string, lines 54-76 would return
`number + incrementAlphaCarry current`. -/
def incrementPatchVersionAlphabeticSequence (patchVersion : String) :
    Except JsError String :=
  let seg := seperatePatchVersion patchVersion
  let number := patchSegGet seg "number"
  let alphabet := patchSegGet seg "alphabet"
  match alphabet with
  | none => .error .typeError
  | some current => .ok (number.getD "" ++ incrementAlphaCarry current)

/-- The intended wiring of the alphabetic incrementer: the composition the
function's own doc comment (create-release.js lines 45-49) describes, i.e.
lines 50-77 with the destructuring reading the `alpha` property that
`seperatePatchVersion` actually returns. -/
def intendedIncrementAlphanumeric (patchVersion : String) : String :=
  let seg := seperatePatchVersion patchVersion
  seg.number ++ incrementAlphaCarry seg.alpha

/-- JavaScript `+` with a string left operand and a number right operand:
the number is converted to its decimal string and concatenated, so
`"7" + 1` evaluates to `"71"`. -/
def jsStringPlusNumber (s : String) (n : Int) : String :=
  s ++ toString n

/-- Embeds `incrementPatchVersionNumericSequence` (create-release.js lines
84-86), `return patchVersionNumber + 1`.  Its argument is always a string:
`createHotfixTag` (line 212) passes `hotfixTag[hotfixTagLength - 1]`, an
element of `latestTag.split('.')`, so the JavaScript `+` is string
concatenation, not arithmetic. -/
def incrementPatchVersionNumericSequence (patchVersionNumber : String) :
    String :=
  jsStringPlusNumber patchVersionNumber 1

/-- JavaScript `s.split(sep)` for a one-character separator string, on the
character list of `s`: splits at every occurrence of `sep`; the result always
has at least one element (`"".split('.')` is `[""]`). -/
def jsSplitAux (sep : Char) : List Char → List Char → List (List Char)
  | [], acc => [acc.reverse]
  | c :: cs, acc =>
    if c = sep then acc.reverse :: jsSplitAux sep cs []
    else jsSplitAux sep cs (c :: acc)

/-- String-level `s.split(sep)` for a one-character separator. -/
def jsSplit (s : String) (sep : Char) : List String :=
  (jsSplitAux sep s.data []).map String.mk

/-- JavaScript `segs.join(sep)` for a one-character separator, on character
lists. -/
def jsJoinAux (sep : Char) : List (List Char) → List Char
  | [] => []
  | [l] => l
  | l :: ls => l ++ sep :: jsJoinAux sep ls

/-- String-level `segs.join(sep)` for a one-character separator. -/
def jsJoin (segs : List String) (sep : Char) : String :=
  String.mk (jsJoinAux sep (segs.map String.data))

/-- Embeds the lookup `VERSIONING_STRATEGY[versioning]` on the object literal
of create-release.js lines 198-201, combined with the call of the found
member and, for a non-string result, the stringification that
`hotfixTag.join('.')` (line 215) later applies to the assigned slot.  A
JavaScript property read consults the prototype chain, so besides the two own
keys the literal exposes the twelve members of `Object.prototype`.  Calling
such a member with `this` bound to the table either throws a `TypeError`
(`__proto__` reads the non-callable `Object.prototype` object;
`__defineGetter__` and `__defineSetter__` demand a callable second argument
that is absent) or returns a non-string value: a wrapper of the argument
(`constructor`, i.e. `Object(segment)`), a boolean (`hasOwnProperty` and
`propertyIsEnumerable` test the two own keys; `isPrototypeOf` is false on a
string primitive), the table itself (`valueOf`), the tag `"[object Object]"`
(`toString`, `toLocaleString`, and what `join` renders for `valueOf`'s
result), or `undefined` (`__lookupGetter__`, `__lookupSetter__`, rendered
`""` by `join`).  Each callable case is recorded as the string `join` renders
for its result, the value's only use.  Only a name found nowhere on the
chain reads `undefined`, whose invocation throws a `TypeError`. -/
def VERSIONING_STRATEGY (versioning : String) :
    Option (String → Except JsError String) :=
  if versioning = "alphanumeric" then some incrementPatchVersionAlphabeticSequence
  else if versioning = "numeric" then
    some (fun s => .ok (incrementPatchVersionNumericSequence s))
  else if versioning = "constructor" then some (fun s => .ok s)
  else if versioning = "hasOwnProperty" then
    some (fun s => .ok (if s = "alphanumeric" ∨ s = "numeric" then "true" else "false"))
  else if versioning = "isPrototypeOf" then some (fun _ => .ok "false")
  else if versioning = "propertyIsEnumerable" then
    some (fun s => .ok (if s = "alphanumeric" ∨ s = "numeric" then "true" else "false"))
  else if versioning = "toLocaleString" then some (fun _ => .ok "[object Object]")
  else if versioning = "toString" then some (fun _ => .ok "[object Object]")
  else if versioning = "valueOf" then some (fun _ => .ok "[object Object]")
  else if versioning = "__proto__" then some (fun _ => .error .typeError)
  else if versioning = "__defineGetter__" then some (fun _ => .error .typeError)
  else if versioning = "__defineSetter__" then some (fun _ => .error .typeError)
  else if versioning = "__lookupGetter__" then some (fun _ => .ok "")
  else if versioning = "__lookupSetter__" then some (fun _ => .ok "")
  else none

/-- The twelve property names an object literal inherits from
`Object.prototype`, in the branch order of `VERSIONING_STRATEGY` above. -/
def OBJECT_PROTOTYPE_MEMBERS : List String :=
  ["constructor", "hasOwnProperty", "isPrototypeOf", "propertyIsEnumerable",
   "toLocaleString", "toString", "valueOf", "__proto__",
   "__defineGetter__", "__defineSetter__", "__lookupGetter__", "__lookupSetter__"]

/-- Embeds `createHotfixTag` (create-release.js lines 209-216): split
`latestTag` on `'.'`, apply `VERSIONING_STRATEGY[versioning]` to the last
segment, write the result back into the last slot and re-join with `'.'`.
When `versioning` is neither an own key of the table nor a member inherited
from `Object.prototype`, the lookup yields `undefined` and the call
expression `undefined(...)` throws a `TypeError`. -/
def createHotfixTag (latestTag versioning : String) : Except JsError String :=
  let hotfixTag := jsSplit latestTag '.'
  match VERSIONING_STRATEGY versioning with
  | none => .error .typeError
  | some f =>
    match f (hotfixTag.getLast?.getD "") with
    | .error e => .error e
    | .ok newPatchVersion =>
      .ok (jsJoin (hotfixTag.dropLast ++ [newPatchVersion]) '.')

/-! ### ReleaseNoteFlattener -/

/-- A flattened release-note entry `{ text: subElement }`
(create-release.js lines 21-23). -/
structure NoteEntry where
  text : String
deriving Repr, DecidableEq

/-- One element of the rich-text `content` array consumed by
`getReleaseNoteFromIssue`: an object whose `content` property is either an
array of sub-elements (`some`) or `null`/absent (`none`). -/
structure ContentBlock where
  content : Option (List String)
deriving Repr, DecidableEq

/-- The body of the `forEach` at create-release.js lines 19-25: given the
notes accumulated so far, visit one block; `element.content.forEach` throws a
`TypeError` when `element.content` is `null` or absent, and otherwise pushes
`{ text: subElement }` for each sub-element in order.  Once an exception has
been thrown, no further block is visited (the error propagates). -/
def releaseNotePush (acc : Except JsError (List NoteEntry))
    (element : ContentBlock) : Except JsError (List NoteEntry) :=
  match acc, element.content with
  | .error e, _ => .error e
  | .ok _, none => .error .typeError
  | .ok result, some subs =>
    .ok (result ++ subs.map fun subElement => { text := subElement })

/-- Embeds `getReleaseNoteFromIssue` (create-release.js lines 12-28): an input
that is `null`/`undefined` (`none`) returns the empty array (lines 15-17);
otherwise the nested `forEach` loops push one entry per sub-element. -/
def getReleaseNoteFromIssue (parentContent : Option (List ContentBlock)) :
    Except JsError (List NoteEntry) :=
  match parentContent with
  | none => .ok []
  | some blocks => blocks.foldl releaseNotePush (.ok [])

/-! ### VersionResolver and IssueCompiler

`fetchVersionId` and `fetchIssuesFromVersion` both launch a `fetch(...)` and
attach `.then`/`.catch` handlers, but neither returns the resulting promise:
each function body falls through and returns `undefined`.  We embed the
handlers as standalone functions on the data they would receive, and the
enclosing functions as returning `JsVal.undef` together with the trace of
network requests they issue. -/

/-- One version object of the tracker's version-list response, carrying at
least an `id`. -/
structure JiraVersion where
  id : Int
deriving Repr, DecidableEq

/-- The `.then` callback of `fetchVersionId` (create-release.js lines
123-129): a response of length 0 yields the sentinel `-1`, otherwise the
result is `response[response.length - 1].id`, the id of the last entry. -/
def fetchVersionIdHandler (response : List JiraVersion) : Int :=
  match response.getLast? with
  | none => -1
  | some v => v.id

/-- The `.catch` result object of `fetchIssuesFromVersion` (create-release.js
lines 166-169): `{ isSuccess: false, error: err }`. -/
structure JiraFailure where
  isSuccess : Bool
  error : String
deriving Repr, DecidableEq

/-- The `.catch` callback of `fetchIssuesFromVersion` (create-release.js lines
166-169): any request failure is mapped to `{ isSuccess: false, error: err }`
— but only as the value of the promise, which the enclosing function
discards. -/
def fetchIssuesCatchHandler (err : String) : JiraFailure :=
  { isSuccess := false, error := err }

/-- An outbound network request issued by the pipeline. -/
inductive CallEvent where
  | versionRequest (url key project : String)
  | issueRequest (url key project : String) (versionId : JsVal)
deriving Repr, DecidableEq

/-- Whether a network request succeeds (with some response payload) or fails
with an error message. -/
inductive RequestOutcome where
  | success
  | failure (err : String)
deriving Repr, DecidableEq

/-- Embeds `fetchVersionId` (create-release.js lines 115-131).  The function
issues the version-list request and installs the `.then` handler above, but
never returns the promise: the body falls through, so the call expression
evaluates to `undefined` no matter what `trackerVersions` the tracker would
answer with. -/
def fetchVersionId (url key projectNameOrId : String)
    (_trackerVersions : List JiraVersion) : JsVal × List CallEvent :=
  (JsVal.undef, [CallEvent.versionRequest url key projectNameOrId])

/-- Embeds `fetchIssuesFromVersion` (create-release.js lines 140-170).  The
function issues the search request and installs the `.then`/`.catch` handlers,
but never returns the promise: the body falls through and the call evaluates
to `undefined` whether the request succeeds or fails. -/
def fetchIssuesFromVersion (url key project : String) (versionId : JsVal)
    (_outcome : RequestOutcome) : JsVal × List CallEvent :=
  (JsVal.undef, [CallEvent.issueRequest url key project versionId])

/-- Embeds `fetchRelatedWork` (create-release.js lines 179-187): bind the
result of `fetchVersionId`, throw `Error('Invalid release version.')` when it
is `null` or `-1`, and otherwise return the result of
`fetchIssuesFromVersion` applied to it.  The pair also records the trace of
network requests issued, in order. -/
def fetchRelatedWork (url key projectNameOrId : String)
    (trackerVersions : List JiraVersion) (issueOutcome : RequestOutcome) :
    Except JsError (JsVal × List CallEvent) :=
  let r1 := fetchVersionId url key projectNameOrId trackerVersions
  let versionId := r1.1
  if versionId = JsVal.null ∨ versionId = JsVal.num (-1) then
    .error (.errorThrown "Invalid release version.")
  else
    let r2 := fetchIssuesFromVersion url key projectNameOrId versionId issueOutcome
    .ok (r2.1, r1.2 ++ r2.2)

/-! ### Specification-side definitions

These definitions follow the words of the specification (not the source) and
are compared against the embedded code. -/

/-- PatchSegment extraction as the claim words it: `alphaPart` is the first
maximal run of lowercase letters, defaulting to `"a"`. -/
def seperatePatchVersionLowercaseSpec (patchVersion : String) : PatchSeg :=
  { number := (firstRun isDigitChar patchVersion).getD ""
  , alpha := (firstRun isLowerChar patchVersion).getD "a" }

/-- The string `r` is the first maximal run of characters of class `p` in
`s`: everything before it avoids `p`, it is nonempty and entirely in `p`, and
it cannot be extended to the right. -/
def IsFirstMaximalRun (p : Char → Bool) (s r : String) : Prop :=
  ∃ pre post : List Char,
    s.data = pre ++ r.data ++ post ∧
    (∀ c ∈ pre, p c = false) ∧
    r.data ≠ [] ∧
    (∀ c ∈ r.data, p c = true) ∧
    (∀ c ∈ post.head?, p c = false)

/-! ### Helper lemmas on character classes and runs -/

theorem isDigitChar_false_of_isLowerChar {c : Char} (h : isLowerChar c = true) :
    isDigitChar c = false := by
  simp [isLowerChar, isDigitChar] at h ⊢
  omega

theorem isAsciiLetterChar_of_isLowerChar {c : Char} (h : isLowerChar c = true) :
    isAsciiLetterChar c = true := by
  simp [isLowerChar, isAsciiLetterChar] at h ⊢
  omega

theorem isAsciiLetterChar_false_of_isDigitChar {c : Char}
    (h : isDigitChar c = true) : isAsciiLetterChar c = false := by
  simp [isDigitChar, isAsciiLetterChar] at h ⊢
  omega

theorem head_dropWhile_false (p : Char → Bool) (l : List Char) :
    ∀ c ∈ (l.dropWhile p).head?, p c = false := by
  induction l with
  | nil => intro c hc; simp [List.dropWhile] at hc
  | cons a l ih =>
    intro c hc
    by_cases hp : p a
    · rw [List.dropWhile_cons_of_pos hp] at hc
      exact ih c hc
    · rw [List.dropWhile_cons_of_neg hp] at hc
      simp at hc
      subst hc
      simpa using hp

theorem firstRunAux_none_of_all (p : Char → Bool) (l : List Char)
    (h : ∀ c ∈ l, p c = false) : firstRunAux p l = none := by
  induction l with
  | nil => rfl
  | cons a l ih =>
    have ha : p a = false := h a (by simp)
    simp [firstRunAux, ha]
    exact ih fun c hc => h c (by simp [hc])

theorem all_false_of_firstRunAux_none (p : Char → Bool) (l : List Char)
    (h : firstRunAux p l = none) : ∀ c ∈ l, p c = false := by
  induction l with
  | nil => simp
  | cons a l ih =>
    by_cases hp : p a
    · simp [firstRunAux, hp] at h
    · intro c hc
      rcases List.mem_cons.mp hc with rfl | hc'
      · simpa using hp
      · simp only [firstRunAux, hp, if_false] at h
        exact ih h c hc'

theorem takeWhile_all (p : Char → Bool) (l : List Char)
    (h : ∀ c ∈ l, p c = true) : l.takeWhile p = l := by
  induction l with
  | nil => rfl
  | cons a l ih =>
    have ha : p a = true := h a (by simp)
    simp [List.takeWhile, ha]
    exact fun c hc => h c (by simp [hc])

theorem takeWhile_append_stop (p : Char → Bool) (l1 l2 : List Char)
    (h1 : ∀ c ∈ l1, p c = true) (h2 : ∀ c ∈ l2.head?, p c = false) :
    (l1 ++ l2).takeWhile p = l1 := by
  induction l1 with
  | nil =>
    cases l2 with
    | nil => rfl
    | cons b t =>
      have hb : p b = false := h2 b (by simp)
      simp [List.takeWhile, hb]
  | cons a l ih =>
    have ha : p a = true := h1 a (by simp)
    simp [List.takeWhile, ha]
    exact ih fun c hc => h1 c (by simp [hc])

theorem firstRunAux_append_of_none (p : Char → Bool) (l1 l2 : List Char)
    (h : ∀ c ∈ l1, p c = false) :
    firstRunAux p (l1 ++ l2) = firstRunAux p l2 := by
  induction l1 with
  | nil => rfl
  | cons a l ih =>
    have ha : p a = false := h a (by simp)
    simp [firstRunAux, ha]
    exact ih fun c hc => h c (by simp [hc])

theorem firstRunAux_decomp (p : Char → Bool) (l r : List Char)
    (h : firstRunAux p l = some r) :
    ∃ pre post : List Char,
      l = pre ++ r ++ post ∧ (∀ c ∈ pre, p c = false) ∧ r ≠ [] ∧
      (∀ c ∈ r, p c = true) ∧ (∀ c ∈ post.head?, p c = false) := by
  induction l with
  | nil => simp [firstRunAux] at h
  | cons a l ih =>
    by_cases hp : p a
    · simp only [firstRunAux, hp, if_true, Option.some.injEq] at h
      refine ⟨[], l.dropWhile p, ?_, by simp, ?_, ?_, ?_⟩
      · rw [← h]
        simp [List.takeWhile_append_dropWhile]
      · rw [← h]; simp
      · intro c hc
        rw [← h] at hc
        rcases List.mem_cons.mp hc with rfl | hc'
        · exact hp
        · exact List.mem_takeWhile_imp hc'
      · exact head_dropWhile_false p l
    · simp only [firstRunAux, hp, if_false] at h
      obtain ⟨pre, post, hl, hpre, hr, hrall, hpost⟩ := ih h
      refine ⟨a :: pre, post, by simp [hl], ?_, hr, hrall, hpost⟩
      intro c hc
      rcases List.mem_cons.mp hc with rfl | hc'
      · simpa using hp
      · exact hpre c hc'

theorem data_ne_nil_of_ne_empty (s : String) (h : s ≠ "") : s.data ≠ [] := by
  intro hd
  apply h
  cases s with
  | mk l => cases hd; rfl

theorem isFirstMaximalRun_of_firstRunAux (p : Char → Bool) (s : String)
    (r : List Char) (h : firstRunAux p s.data = some r) :
    IsFirstMaximalRun p s (String.mk r) := by
  obtain ⟨pre, post, hl, hpre, hr, hrall, hpost⟩ := firstRunAux_decomp p s.data r h
  exact ⟨pre, post, hl, hpre, hr, hrall, hpost⟩

theorem number_eq_of_firstRunAux (s : String) (r : List Char)
    (h : firstRunAux isDigitChar s.data = some r) :
    (seperatePatchVersion s).number = String.mk r := by
  simp [seperatePatchVersion, firstRun, h]

theorem alpha_eq_of_firstRunAux (s : String) (r : List Char)
    (h : firstRunAux isAsciiLetterChar s.data = some r) :
    (seperatePatchVersion s).alpha = String.mk r := by
  simp [seperatePatchVersion, firstRun, h]

/-! ### Helper lemmas on the flattener -/

theorem foldl_releaseNotePush_error (blocks : List ContentBlock) (e : JsError) :
    blocks.foldl releaseNotePush (.error e) = .error e := by
  induction blocks with
  | nil => rfl
  | cons b bs ih => simpa [releaseNotePush] using ih

theorem foldl_releaseNotePush_ok (blocks : List ContentBlock) :
    ∀ acc : List NoteEntry, (∀ b ∈ blocks, b.content.isSome = true) →
      blocks.foldl releaseNotePush (.ok acc) =
        .ok (acc ++ blocks.flatMap fun b =>
          (b.content.getD []).map fun s => ({ text := s } : NoteEntry)) := by
  induction blocks with
  | nil => intro acc _; simp
  | cons b bs ih =>
    intro acc h
    obtain ⟨subs, hsubs⟩ := Option.isSome_iff_exists.mp (h b (by simp))
    have hstep : releaseNotePush (.ok acc) b =
        .ok (acc ++ subs.map fun s => ({ text := s } : NoteEntry)) := by
      simp [releaseNotePush, hsubs]
    rw [List.foldl_cons, hstep, ih _ (fun x hx => h x (by simp [hx]))]
    simp [hsubs]

theorem flatten_ok_iff_aux (blocks : List ContentBlock) :
    ∀ acc : List NoteEntry,
      (∃ l, blocks.foldl releaseNotePush (.ok acc) = .ok l) ↔
        ∀ b ∈ blocks, b.content.isSome = true := by
  induction blocks with
  | nil => intro acc; simp
  | cons b bs ih =>
    intro acc
    cases hb : b.content with
    | none =>
      have hstep : releaseNotePush (.ok acc) b = .error .typeError := by
        simp [releaseNotePush, hb]
      rw [List.foldl_cons, hstep, foldl_releaseNotePush_error]
      simp [hb]
    | some subs =>
      have hstep : releaseNotePush (.ok acc) b =
          .ok (acc ++ subs.map fun s => ({ text := s } : NoteEntry)) := by
        simp [releaseNotePush, hb]
      rw [List.foldl_cons, hstep]
      rw [ih]
      constructor
      · intro h x hx
        rcases List.mem_cons.mp hx with rfl | hx'
        · simp [hb]
        · exact h x hx'
      · intro h x hx
        exact h x (by simp [hx])

/-! ### Claim theorems -/

/-- C1.  The claim says `incrementPatchVersionAlphabeticSequence` returns the
segment's number part concatenated with its alpha part incremented as a
bijective base-26 sequence.  In the code, line 51 destructures the property
`alphabet` from an object that only has `number` and `alpha`, so the function
throws a `TypeError` on every input (`"a"` shown here), returning nothing;
the carry chain of lines 54-76 itself, wired to the `alpha` property the
parser actually returns, does produce the claimed values
`"a"→"b"`, `"z"→"aa"`, `"az"→"ba"`, `"zz"→"aaa"`, `"15z"→"15aa"`. -/
theorem claim1_incrementAlphabetic_destructuring_throws :
    incrementPatchVersionAlphabeticSequence "a" = .error .typeError
  ∧ incrementPatchVersionAlphabeticSequence "15z" = .error .typeError
  ∧ patchSegGet (seperatePatchVersion "a") "alphabet" = none
  ∧ intendedIncrementAlphanumeric "a" = "b"
  ∧ intendedIncrementAlphanumeric "z" = "aa"
  ∧ intendedIncrementAlphanumeric "az" = "ba"
  ∧ intendedIncrementAlphanumeric "zz" = "aaa"
  ∧ intendedIncrementAlphanumeric "15z" = "15aa" :=
  ⟨rfl, rfl, rfl, by decide, by decide, by decide, by decide, by decide⟩

/-- C2.  The claim says that when version resolution yields the empty-list
sentinel, `fetchRelatedWork` returns a Failure without the issue-listing
request ever being issued.  In the code, `fetchVersionId` never returns its
promise, so `fetchRelatedWork` binds `versionId` to `undefined`; the
`null`/`-1` guard cannot fire even though the response handler would compute
the sentinel `-1` for the empty version list, and the issue-listing request
IS issued, with the unresolved `undefined` version id, the call returning
`undefined` rather than any Failure. -/
theorem claim2_issue_listing_runs_despite_unresolved_version :
    fetchVersionIdHandler [] = -1
  ∧ fetchRelatedWork "https://x.atlassian.net" "u@x.com:k" "TAG" []
      RequestOutcome.success
      = .ok (JsVal.undef,
          [CallEvent.versionRequest "https://x.atlassian.net" "u@x.com:k" "TAG",
           CallEvent.issueRequest "https://x.atlassian.net" "u@x.com:k" "TAG"
             JsVal.undef]) := ⟨rfl, rfl⟩

/-- C3.  The claim says the numeric strategy treats the segment as a base-10
integer and adds 1, so that `"7"` maps to `"8"` and
`createHotfixTag("v1.0.3","numeric")` is `"v1.0.4"`.  In the code the
argument is a string (an element of `latestTag.split('.')`), and the
JavaScript `+` is string concatenation: `"7"` maps to `"71"` and the hotfix
tag for `"v1.0.3"` is `"v1.0.31"`. -/
theorem claim3_incrementNumeric_concatenates :
    incrementPatchVersionNumericSequence "7" = "71"
  ∧ createHotfixTag "v1.0.3" "numeric" = .ok "v1.0.31" := ⟨by decide, rfl⟩

/-- C4 counterexample.  The claim says `alphaPart` is the first maximal run
of LOWERCASE letters, defaulting to `"a"` when none are present; the code's
regex is `[a-zA-Z]+`, so on `"B"` (which has no lowercase letters) the code
returns alpha `"B"` while the claim's reading requires the default `"a"`. -/
theorem claim4_counterexample_uppercase_letter_run :
    seperatePatchVersion "B" = ⟨"", "B"⟩
  ∧ seperatePatchVersionLowercaseSpec "B" = ⟨"", "a"⟩
  ∧ seperatePatchVersion "B" ≠ seperatePatchVersionLowercaseSpec "B" :=
  ⟨by decide, by decide, by decide⟩

/-- C4 amended.  `seperatePatchVersion` never fails (it is a total function)
and returns the first maximal run of digits as `number` (the empty string
when the input has no digit) and the first maximal run of ASCII letters of
either case — the regex class `[a-zA-Z]` — as `alpha` (defaulting to `"a"`
when the input has no letter); in particular `"15ba"` yields
`{number := "15", alpha := "ba"}`, `"3"` yields `{number := "3", alpha := "a"}`
and `"zz"` yields `{number := "", alpha := "zz"}`. -/
theorem claim4_seperatePatchVersion_first_maximal_runs (s : String) :
    ((∃ c ∈ s.data, isDigitChar c = true) →
        IsFirstMaximalRun isDigitChar s (seperatePatchVersion s).number)
  ∧ ((∀ c ∈ s.data, isDigitChar c = false) → (seperatePatchVersion s).number = "")
  ∧ ((∃ c ∈ s.data, isAsciiLetterChar c = true) →
        IsFirstMaximalRun isAsciiLetterChar s (seperatePatchVersion s).alpha)
  ∧ ((∀ c ∈ s.data, isAsciiLetterChar c = false) →
        (seperatePatchVersion s).alpha = "a")
  ∧ seperatePatchVersion "15ba" = ⟨"15", "ba"⟩
  ∧ seperatePatchVersion "3" = ⟨"3", "a"⟩
  ∧ seperatePatchVersion "zz" = ⟨"", "zz"⟩ := by
  refine ⟨?_, ?_, ?_, ?_, by decide, by decide, by decide⟩
  · rintro ⟨c, hc, hpc⟩
    cases h : firstRunAux isDigitChar s.data with
    | none =>
      have := all_false_of_firstRunAux_none _ _ h c hc
      rw [hpc] at this
      cases this
    | some r =>
      rw [number_eq_of_firstRunAux s r h]
      exact isFirstMaximalRun_of_firstRunAux _ s r h
  · intro h
    simp [seperatePatchVersion, firstRun, firstRunAux_none_of_all _ _ h]
  · rintro ⟨c, hc, hpc⟩
    cases h : firstRunAux isAsciiLetterChar s.data with
    | none =>
      have := all_false_of_firstRunAux_none _ _ h c hc
      rw [hpc] at this
      cases this
    | some r =>
      rw [alpha_eq_of_firstRunAux s r h]
      exact isFirstMaximalRun_of_firstRunAux _ s r h
  · intro h
    simp [seperatePatchVersion, firstRun, firstRunAux_none_of_all _ _ h]

/-- C4 witness: on the concrete segment `"15ba"` the digit hypothesis holds
and the extracted number part is its first maximal digit run. -/
theorem claim4_witness :
    (∃ c ∈ ("15ba" : String).data, isDigitChar c = true)
  ∧ IsFirstMaximalRun isDigitChar "15ba" (seperatePatchVersion "15ba").number :=
  ⟨by decide, (claim4_seperatePatchVersion_first_maximal_runs "15ba").1 (by decide)⟩

/-- C5.  The claim says a request failure during issue listing makes
`fetchIssuesFromVersion` and `fetchRelatedWork` return a Failure value
carrying the error.  In the code, the `.catch` handler does build
`{isSuccess: false, error: err}`, but only as the value of a promise the
function discards: `fetchIssuesFromVersion` returns `undefined` whatever the
request outcome, and `fetchRelatedWork` returns that `undefined`, never a
Failure value. -/
theorem claim5_issue_listing_failure_not_returned :
    fetchIssuesFromVersion "https://x.atlassian.net" "u@x.com:k" "TAG"
        (JsVal.num 10001) (RequestOutcome.failure "socket hang up")
      = (JsVal.undef,
         [CallEvent.issueRequest "https://x.atlassian.net" "u@x.com:k" "TAG"
            (JsVal.num 10001)])
  ∧ fetchIssuesCatchHandler "socket hang up" =
      { isSuccess := false, error := "socket hang up" }
  ∧ fetchRelatedWork "https://x.atlassian.net" "u@x.com:k" "TAG"
        [{ id := 10001 }] (RequestOutcome.failure "socket hang up")
      = .ok (JsVal.undef,
          [CallEvent.versionRequest "https://x.atlassian.net" "u@x.com:k" "TAG",
           CallEvent.issueRequest "https://x.atlassian.net" "u@x.com:k" "TAG"
             JsVal.undef]) := ⟨rfl, rfl, rfl⟩

/-- C6.  The claim says `fetchVersionId` yields the sentinel for an empty
response list and otherwise the `id` of the last entry.  In the code the
function body installs the `.then` handler but has no return statement, so
the call evaluates to `undefined` for EVERY response list, yielding neither
the sentinel nor any id (first conjunct); the installed handler is the
mapping the claim describes — `-1` on the empty list, the last entry's id by
list order otherwise — but its result is computed only inside the discarded
promise, and from the raw response at that (the code never parses it with
`response.json()`). -/
theorem claim6_fetchVersionId_returns_undefined :
    (∀ vs : List JiraVersion,
        (fetchVersionId "https://x.atlassian.net" "u@x.com:k" "TAG" vs).1
          = JsVal.undef)
  ∧ fetchVersionIdHandler [] = -1
  ∧ ∀ (l : List JiraVersion) (v : JiraVersion),
      fetchVersionIdHandler (l ++ [v]) = v.id := by
  refine ⟨fun _ => rfl, rfl, ?_⟩
  intro l v
  simp [fetchVersionIdHandler, List.getLast?_concat]

/-- C7 counterexample.  The claim says `createHotfixTag(x, strategy)` fails
with a configuration error for EVERY strategy that is not `"numeric"` and
not `"alphanumeric"`.  The strategy `"toString"` is neither, yet the
prototype-chain lookup `VERSIONING_STRATEGY["toString"]` finds the inherited
`Object.prototype.toString`, the call returns `"[object Object]"`, and
`createHotfixTag("v1.0.3", "toString")` silently succeeds with
`"v1.0.[object Object]"` instead of failing. -/
theorem claim7_counterexample_prototype_toString :
    ("toString" : String) ≠ "numeric" ∧ ("toString" : String) ≠ "alphanumeric"
  ∧ createHotfixTag "v1.0.3" "toString" = .ok "v1.0.[object Object]"
  ∧ ¬ ∃ e, createHotfixTag "v1.0.3" "toString" = .error e := by
  refine ⟨by decide, by decide, rfl, ?_⟩
  rintro ⟨e, he⟩
  rw [show createHotfixTag "v1.0.3" "toString" = .ok "v1.0.[object Object]"
    from rfl] at he
  cases he

/-- C7 amended.  For every latest tag and every strategy name that is
neither `"numeric"` nor `"alphanumeric"` nor one of the twelve property
names inherited from `Object.prototype`, `createHotfixTag` fails: the
lookup finds nothing on the prototype chain, yields `undefined`, and
invoking it throws a `TypeError`; the builder never falls back to a
recognized strategy — though for the inherited names the call can instead
silently succeed with a nonsensical tag, as the counterexample shows. -/
theorem claim7_amended_unknown_strategy_throws (latestTag versioning : String)
    (h1 : versioning ≠ "numeric") (h2 : versioning ≠ "alphanumeric")
    (h3 : versioning ∉ OBJECT_PROTOTYPE_MEMBERS) :
    createHotfixTag latestTag versioning = .error .typeError := by
  simp only [OBJECT_PROTOTYPE_MEMBERS, List.mem_cons, List.mem_nil_iff,
    or_false, not_or] at h3
  obtain ⟨hc, hh, hip, hpe, htl, hts, hv, hp, hdg, hds, hlg, hls⟩ := h3
  unfold createHotfixTag VERSIONING_STRATEGY
  rw [if_neg h2, if_neg h1, if_neg hc, if_neg hh, if_neg hip, if_neg hpe,
    if_neg htl, if_neg hts, if_neg hv, if_neg hp, if_neg hdg, if_neg hds,
    if_neg hlg, if_neg hls]

/-- C7 witness: the strategy name `"unknown"` — neither recognized nor
inherited — is rejected on the concrete tag `"v1.0.3"`. -/
theorem claim7_amended_witness :
    ("unknown" : String) ≠ "numeric" ∧ ("unknown" : String) ≠ "alphanumeric"
  ∧ ("unknown" : String) ∉ OBJECT_PROTOTYPE_MEMBERS
  ∧ createHotfixTag "v1.0.3" "unknown" = .error .typeError :=
  ⟨by decide, by decide, by decide,
   claim7_amended_unknown_strategy_throws "v1.0.3" "unknown"
     (by decide) (by decide) (by decide)⟩

/-- C8.  `getReleaseNoteFromIssue` maps a `null`/absent input to the empty
sequence, and maps every sequence of content blocks (each with a present
content array) to the concatenation, in block order then sub-element order,
of one `{text := subElement}` entry per sub-element; in particular
`[{content:["x","y"]},{content:["z"]}]` flattens to
`[{text:"x"},{text:"y"},{text:"z"}]`. -/
theorem claim8_getReleaseNoteFromIssue_flattens :
    getReleaseNoteFromIssue none = .ok []
  ∧ (∀ blocks : List ContentBlock, (∀ b ∈ blocks, b.content.isSome = true) →
      getReleaseNoteFromIssue (some blocks) =
        .ok (blocks.flatMap fun b =>
          (b.content.getD []).map fun s => ({ text := s } : NoteEntry)))
  ∧ getReleaseNoteFromIssue
      (some [{ content := some ["x", "y"] }, { content := some ["z"] }]) =
      .ok [{ text := "x" }, { text := "y" }, { text := "z" }] := by
  refine ⟨rfl, ?_, rfl⟩
  intro blocks h
  have := foldl_releaseNotePush_ok blocks [] h
  simpa [getReleaseNoteFromIssue] using this

/-- C8 witness: the flattening equation instantiated at the concrete block
list `[{content:["x","y"]},{content:["z"]}]`. -/
theorem claim8_witness :
    (∀ b ∈ [({ content := some ["x", "y"] } : ContentBlock),
            { content := some ["z"] }], b.content.isSome = true)
  ∧ getReleaseNoteFromIssue
      (some [{ content := some ["x", "y"] }, { content := some ["z"] }]) =
      .ok ([({ content := some ["x", "y"] } : ContentBlock),
            { content := some ["z"] }].flatMap fun b =>
        (b.content.getD []).map fun s => ({ text := s } : NoteEntry)) :=
  ⟨by decide, claim8_getReleaseNoteFromIssue_flattens.2.1 _ (by decide)⟩

/-- C9 counterexample.  The claim says `getReleaseNoteFromIssue` never fails
on malformed inputs such as a block whose content field is null or missing;
on the concrete input `[{content: null}]` the code calls
`element.content.forEach` on `null` and throws a `TypeError`, returning no
sequence at all. -/
theorem claim9_counterexample_null_content :
    getReleaseNoteFromIssue (some [{ content := none }]) = .error .typeError
  ∧ ¬ ∃ l, getReleaseNoteFromIssue (some [{ content := none }]) = .ok l := by
  refine ⟨rfl, ?_⟩
  rintro ⟨l, hl⟩
  rw [show getReleaseNoteFromIssue (some [{ content := none }]) =
    .error .typeError from rfl] at hl
  cases hl

/-- C9 amended.  `getReleaseNoteFromIssue` returns a sequence of entries
exactly when every block's content field is present (a sequence); when some
block's content is null or missing, it throws a `TypeError` instead, so it
is not total over such malformed shapes. -/
theorem claim9_flatten_ok_iff_contents_present (blocks : List ContentBlock) :
    (∃ l, getReleaseNoteFromIssue (some blocks) = .ok l) ↔
      ∀ b ∈ blocks, b.content.isSome = true := by
  simpa [getReleaseNoteFromIssue] using flatten_ok_iff_aux blocks []

/-- C9 witness: the amended equivalence instantiated at the concrete
well-formed input `[{content:["z"]}]`. -/
theorem claim9_witness :
    ∃ l, getReleaseNoteFromIssue (some [{ content := some ["z"] }]) = .ok l :=
  (claim9_flatten_ok_iff_contents_present [{ content := some ["z"] }]).mpr
    (by decide)

/-- C10.  Parsing is a left inverse of segment composition: for every string
`n` of digits (possibly empty) and every nonempty string `a` of lowercase
letters, `seperatePatchVersion (n ++ a)` returns exactly
`{number := n, alpha := a}`. -/
theorem claim10_seperatePatchVersion_left_inverse (n a : String)
    (hn : ∀ c ∈ n.data, isDigitChar c = true)
    (ha : ∀ c ∈ a.data, isLowerChar c = true)
    (hne : a ≠ "") :
    seperatePatchVersion (n ++ a) = ⟨n, a⟩ := by
  have hdata : (n ++ a).data = n.data ++ a.data := String.data_append n a
  obtain ⟨ha1, hat, hahd⟩ : ∃ h t, a.data = h :: t := by
    cases hd : a.data with
    | nil => exact absurd hd (data_ne_nil_of_ne_empty a hne)
    | cons h t => exact ⟨h, t, rfl⟩
  have hnum : firstRunAux isDigitChar ((n ++ a).data) =
      (if n.data = [] then none else some n.data) := by
    rw [hdata]
    cases hn0 : n.data with
    | nil =>
      simp only [hn0, List.nil_append, if_true]
      apply firstRunAux_none_of_all
      intro c hc
      rw [hahd] at hc
      exact isDigitChar_false_of_isLowerChar (ha c (by rw [hahd]; exact hc))
    | cons c cs =>
      have hc : isDigitChar c = true := hn c (by rw [hn0]; simp)
      simp only [hn0, List.cons_append, firstRunAux, hc, if_true,
        if_neg (by simp : ¬(c :: cs = []))]
      congr 1
      congr 1
      apply takeWhile_append_stop
      · intro x hx
        exact hn x (by rw [hn0]; simp [hx])
      · intro x hx
        rw [hahd] at hx
        simp at hx
        subst hx
        exact isDigitChar_false_of_isLowerChar (ha _ (by rw [hahd]; simp))
  have halpha : firstRunAux isAsciiLetterChar ((n ++ a).data) = some a.data := by
    rw [hdata]
    rw [firstRunAux_append_of_none _ _ _
      (fun c hc => isAsciiLetterChar_false_of_isDigitChar (hn c hc))]
    rw [hahd]
    have hh : isAsciiLetterChar ha1 = true :=
      isAsciiLetterChar_of_isLowerChar (ha ha1 (by rw [hahd]; simp))
    simp only [firstRunAux, hh, if_true]
    congr 2
    apply takeWhile_all
    intro c hc
    exact isAsciiLetterChar_of_isLowerChar (ha c (by rw [hahd]; simp [hc]))
  have hmkn : String.mk n.data = n := by cases n; rfl
  have hmka : String.mk a.data = a := by cases a; rfl
  have e2 : (firstRun isAsciiLetterChar (n ++ a)).getD "a" = a := by
    unfold firstRun
    rw [halpha]
    simp [hmka]
  have e1 : (firstRun isDigitChar (n ++ a)).getD "" = n := by
    unfold firstRun
    cases hn0 : n.data with
    | nil =>
      rw [hnum, if_pos hn0]
      show ("" : String) = n
      rw [← hmkn, hn0]
    | cons c cs =>
      rw [hnum, if_neg (by rw [hn0]; simp)]
      simp [hmkn]
  have hdef : seperatePatchVersion (n ++ a) =
      ⟨(firstRun isDigitChar (n ++ a)).getD "",
       (firstRun isAsciiLetterChar (n ++ a)).getD "a"⟩ := rfl
  rw [hdef, e1, e2]

/-- C10 witness: the left-inverse property at the concrete decomposition
`"15" ++ "ba"`. -/
theorem claim10_witness :
    (∀ c ∈ ("15" : String).data, isDigitChar c = true)
  ∧ (∀ c ∈ ("ba" : String).data, isLowerChar c = true)
  ∧ ("ba" : String) ≠ ""
  ∧ seperatePatchVersion ("15" ++ "ba") = ⟨"15", "ba"⟩ :=
  ⟨by decide, by decide, by decide,
   claim10_seperatePatchVersion_left_inverse "15" "ba"
     (by decide) (by decide) (by decide)⟩

end AutoRelease
